import Mathlib

/-!
Shallow embedding of `src/backend/services/versionManager.js` (Hytale-F2P).

JavaScript values are modelled as follows: nullable strings become
`Option String` (with `none` for `null`/`undefined`), JS truthiness of a
nullable string is `jsTruthy` (`null` and `""` are falsy), JS numbers that
hold build counts become `Int` (numeric precision is idealised: JS floats
are modelled as exact integers), fallible asynchronous operations become
`Except` values, and external collaborators (network, filesystem, platform,
clock) are passed in as explicit oracle parameters.  Regex matching used by
the source (`/v(\d+)/` and `/(\d+)\.pwr/`, leftmost match, greedy `\d+`)
is implemented directly as character-list scans with the same semantics.
-/

/-- Decimal value of a list of digit characters (most significant first). -/
def digitsVal (l : List Char) : Nat :=
  l.foldl (fun a c => 10 * a + (c.toNat - 48)) 0

/-- True when the list starts with a decimal digit. -/
def headIsDigit : List Char → Bool
  | [] => false
  | c :: _ => c.isDigit

/-- Scan for the JS regex `/v(\d+)/`: the first occurrence of a literal `v`
followed by at least one digit; the capture is the maximal digit run after
that `v`.  Returns the decimal value of the capture. -/
def vScan : List Char → Option Nat
  | [] => none
  | c :: cs =>
    if c = 'v' ∧ headIsDigit cs = true then
      some (digitsVal (cs.takeWhile Char.isDigit))
    else vScan cs

/-- Scan for the JS regex `/(\d+)\.pwr/`: the leftmost position where a
digit run is immediately followed by the literal `.pwr`; the capture is
that (maximal) digit run. -/
def pwrScan : List Char → Option Nat
  | [] => none
  | c :: cs =>
    if c.isDigit = true then
      if List.isPrefixOf ['.', 'p', 'w', 'r'] (List.dropWhile Char.isDigit (c :: cs)) then
        some (digitsVal (List.takeWhile Char.isDigit (c :: cs)))
      else pwrScan cs
    else pwrScan cs

/-- Whitespace characters skipped by JS `parseInt` (common subset). -/
def isJsSpace (c : Char) : Bool :=
  c = ' ' || c = '\t' || c = '\n' || c = '\r' || c = '\x0b' || c = '\x0c'

/-- Hexadecimal digit test, as accepted by JS `parseInt` with radix 16. -/
def isHexDigit (c : Char) : Bool :=
  c.isDigit || ('a' ≤ c && c ≤ 'f') || ('A' ≤ c && c ≤ 'F')

/-- Numeric value of one hexadecimal digit character. -/
def hexDigitVal (c : Char) : Nat :=
  if c.isDigit then c.toNat - 48
  else if 'a' ≤ c ∧ c ≤ 'f' then c.toNat - 87
  else c.toNat - 55

/-- Value of a list of hexadecimal digit characters. -/
def hexVal (l : List Char) : Nat :=
  l.foldl (fun a c => 16 * a + hexDigitVal c) 0

/-- Longest decimal-digit run at the head of the list, as a number;
`none` when there is no leading digit. -/
def jsDecimal (l : List Char) : Option Nat :=
  let ds := l.takeWhile Char.isDigit
  if ds = [] then none else some (digitsVal ds)

/-- Unsigned part of JS `parseInt` with unspecified radix: a `0x`/`0X`
prefix switches to hexadecimal, otherwise the longest decimal-digit run
at the head is taken. -/
def jsParseIntUnsigned (l : List Char) : Option Nat :=
  match l with
  | c0 :: c1 :: rest =>
    if c0 = '0' ∧ (c1 = 'x' ∨ c1 = 'X') then
      let ds := rest.takeWhile isHexDigit
      if ds = [] then none else some (hexVal ds)
    else jsDecimal (c0 :: c1 :: rest)
  | l => jsDecimal l

/-- Model of JS `parseInt(s)`: skip leading whitespace, optional sign,
then the unsigned parse; `none` models `NaN`. -/
def jsParseInt (s : String) : Option Int :=
  match s.data.dropWhile isJsSpace with
  | [] => none
  | c :: rest =>
    if c = '-' then (jsParseIntUnsigned rest).map (fun n => -(n : Int))
    else if c = '+' then (jsParseIntUnsigned rest).map (fun n => (n : Int))
    else (jsParseIntUnsigned (c :: rest)).map (fun n => (n : Int))

/-- JS truthiness of a nullable string: `null`/`undefined` and `""` are
falsy, every other string is truthy. -/
def jsTruthy (o : Option String) : Bool :=
  match o with
  | none => false
  | some s => decide (s ≠ "")

/-- Embedding of `extractVersionNumber(version)`: `!version` yields 0;
then the `/v(\d+)/` pattern, then `/(\d+)\.pwr/`, then a bare `parseInt`
with `NaN` collapsed to 0. -/
def extractVersionNumber (version : Option String) : Int :=
  match version with
  | none => 0
  | some s =>
    if s = "" then 0
    else
      match vScan s.data with
      | some n => (n : Int)
      | none =>
        match pwrScan s.data with
        | some n => (n : Int)
        | none => (jsParseInt s).getD 0

/-- Constant `BASE_PATCH_URL` from the source. -/
def BASE_PATCH_URL : String := "https://game-patches.hytale.com/patches"

/-- Embedding of `buildArchiveUrl(buildNumber, branch)`.  The source reads
`os`/`arch` from the platform inspector (`getOS()`/`getArch()`); here they
are explicit oracle parameters. -/
def buildArchiveUrl (os arch : String) (buildNumber : Int) (branch : String) : String :=
  BASE_PATCH_URL ++ "/" ++ os ++ "/" ++ arch ++ "/" ++ branch ++ "/0/" ++
    toString buildNumber ++ ".pwr"

/-- One patch-manifest entry, as delivered by the manifest endpoint
(`original_url`, `patch_url`, `patch_hash`, `from`, `proper_patch`,
`patch_note`).  The `from` field is named `fromBuild` because `from` is a
Lean keyword; JS treats a `from` of `0` as falsy. -/
structure PatchInfo where
  original_url : Option String
  patch_url : Option String
  patch_hash : Option String
  fromBuild : Option Int
  proper_patch : Bool
  patch_note : Option String
deriving DecidableEq

/-- The object literal returned by `extractVersionDetails`. -/
structure VersionDetails where
  version : Option String
  buildNumber : Int
  buildName : String
  fullUrl : String
  differentialUrl : Option String
  checksum : Option String
  sourceVersion : Option String
  isDifferential : Bool
  releaseNotes : Option String
deriving DecidableEq

/-- JS `x || null` on a nullable string: an empty string collapses to
`null`. -/
def jsOrNullStr (o : Option String) : Option String :=
  match o with
  | some s => if s = "" then none else some s
  | none => none

/-- JS `x || dflt` on a nullable string. -/
def jsOrStr (o : Option String) (dflt : String) : String :=
  match o with
  | some s => if s = "" then dflt else s
  | none => dflt

/-- Embedding of `extractVersionDetails(targetVersion, branch)`.  The patch
manifest fetched over the network is an oracle `manifest` mapping a build
number to its (possibly absent) entry; `os`/`arch` are the platform oracle.
The `sourceVersion` field follows the JS conditional
`patchInfo?.from ? from.pwr : (previousBuild > 0 ? previousBuild.pwr : null)`,
where a `from` of `0` is falsy. -/
def extractVersionDetails (os arch : String) (manifest : Int → Option PatchInfo)
    (targetVersion : Option String) (branch : String) : VersionDetails :=
  let buildNumber := extractVersionNumber targetVersion
  let previousBuild := buildNumber - 1
  let patchInfo := manifest buildNumber
  { version := targetVersion
    buildNumber := buildNumber
    buildName := "HYTALE-Build-" ++ toString buildNumber
    fullUrl := jsOrStr (patchInfo.bind PatchInfo.original_url)
      (buildArchiveUrl os arch buildNumber branch)
    differentialUrl := jsOrNullStr (patchInfo.bind PatchInfo.patch_url)
    checksum := jsOrNullStr (patchInfo.bind PatchInfo.patch_hash)
    sourceVersion :=
      match patchInfo.bind PatchInfo.fromBuild with
      | some k =>
        if k ≠ 0 then some (toString k ++ ".pwr")
        else if previousBuild > 0 then some (toString previousBuild ++ ".pwr") else none
      | none =>
        if previousBuild > 0 then some (toString previousBuild ++ ".pwr") else none
    isDifferential := (patchInfo.map PatchInfo.proper_patch).getD false
    releaseNotes := jsOrNullStr (patchInfo.bind PatchInfo.patch_note) }

/-- Embedding of `canUseDifferentialUpdate(currentVersion, targetDetails)`:
the source's guard cascade, with JS truthiness for the nullable fields. -/
def canUseDifferentialUpdate (currentVersion : Option String)
    (targetDetails : Option VersionDetails) : Bool :=
  match targetDetails with
  | none => false
  | some td =>
    if jsTruthy td.differentialUrl = false then false
    else if td.isDifferential = false then false
    else if jsTruthy currentVersion = false then false
    else decide (extractVersionNumber currentVersion =
      extractVersionNumber td.sourceVersion)

/-- The `for (let i = current + 1; i <= target; i++)` loop of
`needsIntermediatePatches`, pushing `i + ".pwr"` each iteration.  The
recursion is structural on the remaining iteration count (the loop runs
while `i <= target`, i.e. exactly `max 0 (target + 1 - i)` times). -/
def intermediateLoop : Nat → Int → List String
  | 0, _ => []
  | fuel + 1, i => (toString i ++ ".pwr") :: intermediateLoop fuel (i + 1)

/-- Embedding of `needsIntermediatePatches(currentVersion, targetVersion)`. -/
def needsIntermediatePatches (currentVersion targetVersion : Option String) : List String :=
  if jsTruthy currentVersion = false then []
  else
    let current := extractVersionNumber currentVersion
    let target := extractVersionNumber targetVersion
    intermediateLoop (target - current).toNat (current + 1)

/-- The `for (let i = latest; i >= lo; i--)` loop of
`discoverAvailableVersions`.  The per-build existence check
`checkArchiveExists(i, branch)` is the oracle `probe`; the first component
records every build probed (one probe per iteration, in program order) and
the second collects `i + ".pwr"` for the builds whose probe reported
present. -/
def probeLoop (probe : Int → String → Bool) (branch : String) : Nat → Int →
    List Int × List String
  | 0, _ => ([], [])
  | fuel + 1, i =>
    let rest := probeLoop probe branch fuel (i - 1)
    (i :: rest.1, if probe i branch then (toString i ++ ".pwr") :: rest.2 else rest.2)

/-- Embedding of `discoverAvailableVersions(latestKnown, branch, maxProbe)`,
instrumented: the result is the pair (builds probed in order, `available`).
The loop runs `i` from `latest` down while `i >= max(1, latest - maxProbe)`,
i.e. exactly `max 0 (latest + 1 - max 1 (latest - maxProbe))` times. -/
def discoverAvailableVersions (probe : Int → String → Bool) (latestKnown : Option String)
    (branch : String) (maxProbe : Int) : List Int × List String :=
  let latest := extractVersionNumber latestKnown
  probeLoop probe branch (latest + 1 - max 1 (latest - maxProbe)).toNat latest

/-- The provider payload cached by `fetchNewAPI`: `hytaleTruthy` models
whether `response.data.hytale` is truthy, `payload` distinguishes
snapshots. -/
structure ApiData where
  hytaleTruthy : Bool
  payload : Nat
deriving DecidableEq

/-- The module-level cache cell `(apiCache, apiCacheTime)`. -/
structure CacheState where
  apiCache : Option ApiData
  apiCacheTime : Int
deriving DecidableEq

/-- Constant `API_CACHE_DURATION` (one minute, in milliseconds). -/
def API_CACHE_DURATION : Int := 60000

/-- The `try { ... } catch { ... }` body of `fetchNewAPI`: `net` is the
outcome of `axios.get`, where `Except.error` is a network failure and
`Except.ok none` a response whose `data` is falsy.  A response whose
`data.hytale` is falsy throws `Invalid API response structure`, caught by
the same handler as a network failure: return the (stale) cache when one
exists, otherwise rethrow. -/
def fetchNewAPITry (st : CacheState) (now : Int) (net : Except String (Option ApiData)) :
    Except String ApiData × CacheState :=
  match net with
  | .ok (some d) =>
    if d.hytaleTruthy then (.ok d, { apiCache := some d, apiCacheTime := now })
    else
      match st.apiCache with
      | some cached => (.ok cached, st)
      | none => (.error "Invalid API response structure", st)
  | .ok none =>
    match st.apiCache with
    | some cached => (.ok cached, st)
    | none => (.error "Invalid API response structure", st)
  | .error e =>
    match st.apiCache with
    | some cached => (.ok cached, st)
    | none => (.error e, st)

/-- Embedding of `fetchNewAPI()` over the cache cell: state-passing form,
with `now` the value of `Date.now()` and `net` the network oracle. -/
def fetchNewAPI (st : CacheState) (now : Int) (net : Except String (Option ApiData)) :
    Except String ApiData × CacheState :=
  match st.apiCache with
  | some cached =>
    if now - st.apiCacheTime < API_CACHE_DURATION then (.ok cached, st)
    else fetchNewAPITry st now net
  | none => fetchNewAPITry st now net

/-- The legacy version endpoint's response body: `client_version` may be
absent (or empty, which JS treats as falsy). -/
structure LegacyResponse where
  client_version : Option String
deriving DecidableEq

/-- Embedding of `getLatestClientVersion(branch)`.  `primary` is the
outcome of `getLatestVersionFromNewAPI(branch)` (tier 1); `legacy` is the
outcome of the old-API request, where `Except.ok none` models a response
with falsy `data`.  Every failure path ends in the hard-coded `"v8"`. -/
def getLatestClientVersion (primary : Except String String)
    (legacy : Except String (Option LegacyResponse)) : String :=
  match primary with
  | .ok v => v
  | .error _ =>
    match legacy with
    | .ok (some r) =>
      match r.client_version with
      | some v => if v = "" then "v8" else v
      | none => "v8"
    | .ok none => "v8"
    | .error _ => "v8"

/-- Embedding of `computeFileChecksum(filePath)`: the file is streamed
through SHA-256 and the hex digest returned.  The hash is the oracle
`sha256hex` over the file's bytes; `fsRead` is the filesystem oracle
(`Except.error` models a stream error, which rejects the promise). -/
def computeFileChecksum (sha256hex : List UInt8 → String)
    (fsRead : String → Except String (List UInt8)) (filePath : String) :
    Except String String :=
  match fsRead filePath with
  | .ok contents => .ok (sha256hex contents)
  | .error e => .error e

/-- Embedding of `validateChecksum(filePath, expectedChecksum)`: a falsy
expected checksum short-circuits to `true` before any file access;
otherwise the computed digest is compared to the expectation with JS `===`
(exact, case-sensitive string equality). -/
def validateChecksum (sha256hex : List UInt8 → String)
    (fsRead : String → Except String (List UInt8)) (filePath : String)
    (expectedChecksum : Option String) : Except String Bool :=
  match expectedChecksum with
  | none => .ok true
  | some e =>
    if e = "" then .ok true
    else
      match computeFileChecksum sha256hex fsRead filePath with
      | .ok actual => .ok (decide (actual = e))
      | .error err => .error err

/-- Fuel-free reformulation of `Nat.toDigits 10`: the decimal digit
characters of `n`, most significant first. -/
def natDigits (n : Nat) : List Char :=
  if n < 10 then [Nat.digitChar n]
  else natDigits (n / 10) ++ [Nat.digitChar (n % 10)]
termination_by n
decreasing_by exact Nat.div_lt_self (by omega) (by omega)

/-- Descending run of integers from `hi` down to `lo` (empty when
`hi < lo`); used to state what `discoverAvailableVersions` probes. -/
def descRange (hi lo : Int) : List Int :=
  (List.range (hi + 1 - lo).toNat).map (fun k : Nat => hi - (k : Int))

/-- Ascending run of integers from `lo` to `hi` (empty when `hi < lo`);
used to state what `needsIntermediatePatches` returns. -/
def ascRange (lo hi : Int) : List Int :=
  (List.range (hi + 1 - lo).toNat).map (fun k : Nat => lo + (k : Int))

/-- The manifest entry of the delta example in the spec: declared source
build 5, a delta URL, and a proper-delta mark. -/
def exampleEntry : PatchInfo :=
  { original_url := none, patch_url := some "x", patch_hash := none
    fromBuild := some 5, proper_patch := true, patch_note := none }

/-- One-entry manifest holding `exampleEntry` at build 6. -/
def exampleManifest : Int → Option PatchInfo :=
  fun b => if b = 6 then some exampleEntry else none

/-- A manifest whose entry for build 8 is marked a proper delta with a
patch URL but declares no source build (`from` absent). -/
def noFromManifest : Int → Option PatchInfo :=
  fun b =>
    if b = 8 then
      some { original_url := none, patch_url := some "x", patch_hash := some "h"
             fromBuild := none, proper_patch := true, patch_note := none }
    else none

section Lemmas

/-- A decimal digit character is not any given non-digit character. -/
theorem isDigit_ne {c : Char} (d : Char) (h : c.isDigit = true)
    (hd : d.isDigit = false) : c ≠ d := by
  intro e
  subst e
  rw [h] at hd
  cases hd

/-- Digit characters are not `parseInt` whitespace. -/
theorem isJsSpace_eq_false_of_isDigit {c : Char} (h : c.isDigit = true) :
    isJsSpace c = false := by
  by_contra hs
  rw [Bool.not_eq_false] at hs
  simp only [isJsSpace, Bool.or_eq_true, decide_eq_true_eq] at hs
  rcases hs with ((((h1 | h1) | h1) | h1) | h1) | h1 <;> subst h1 <;> simp at h

/-- The character for a decimal digit is a digit character. -/
theorem digitChar_isDigit {m : Nat} (h : m < 10) :
    (Nat.digitChar m).isDigit = true := by
  interval_cases m <;> decide

/-- Numeric value of the character for a decimal digit. -/
theorem digitChar_toNat {m : Nat} (h : m < 10) :
    (Nat.digitChar m).toNat = 48 + m := by
  interval_cases m <;> decide

/-- `takeWhile` runs through a block that satisfies the predicate. -/
theorem takeWhile_append_of_all {p : Char → Bool} {xs : List Char} (ys : List Char)
    (h : ∀ c ∈ xs, p c = true) :
    (xs ++ ys).takeWhile p = xs ++ ys.takeWhile p := by
  induction xs with
  | nil => simp
  | cons c cs ih =>
    have hc : p c = true := h c (List.mem_cons_self c cs)
    simp only [List.cons_append, List.takeWhile_cons, hc, if_true]
    rw [ih (fun c hm => h c (List.mem_cons_of_mem _ hm))]

/-- `dropWhile` skips a block that satisfies the predicate. -/
theorem dropWhile_append_of_all {p : Char → Bool} {xs : List Char} (ys : List Char)
    (h : ∀ c ∈ xs, p c = true) :
    (xs ++ ys).dropWhile p = ys.dropWhile p := by
  induction xs with
  | nil => simp
  | cons c cs ih =>
    have hc : p c = true := h c (List.mem_cons_self c cs)
    simp only [List.cons_append, List.dropWhile_cons, hc, if_true]
    exact ih (fun c hm => h c (List.mem_cons_of_mem _ hm))

/-- A list whose head is not a digit has no leading digit run. -/
theorem takeWhile_isDigit_eq_nil {l : List Char} (h : headIsDigit l = false) :
    l.takeWhile Char.isDigit = [] := by
  cases l with
  | nil => rfl
  | cons c cs =>
    simp only [headIsDigit] at h
    simp [List.takeWhile_cons, h]

/-- The `v`-pattern scan succeeds on `v` + digits + non-digit-led suffix
and captures exactly the digit block. -/
theorem vScan_v_digits {l : List Char} (suf : List Char) (hne : l ≠ [])
    (hd : ∀ c ∈ l, c.isDigit = true) (hsuf : headIsDigit suf = false) :
    vScan ('v' :: (l ++ suf)) = some (digitsVal l) := by
  obtain ⟨d, ds, rfl⟩ := List.exists_cons_of_ne_nil hne
  have hdd : d.isDigit = true := hd d (List.mem_cons_self d ds)
  have hguard : ('v' : Char) = 'v' ∧ headIsDigit ((d :: ds) ++ suf) = true := by
    refine ⟨rfl, ?_⟩
    simp [headIsDigit, hdd]
  rw [vScan, if_pos hguard, takeWhile_append_of_all suf hd,
    takeWhile_isDigit_eq_nil hsuf, List.append_nil]

/-- The `v`-pattern scan fails on a list with no `v` at all. -/
theorem vScan_eq_none {l : List Char} (h : 'v' ∉ l) : vScan l = none := by
  induction l with
  | nil => rfl
  | cons c cs ih =>
    have hc : c ≠ 'v' := fun e => h (e ▸ List.mem_cons_self c cs)
    rw [vScan, if_neg (fun hg => hc hg.1)]
    exact ih (fun hm => h (List.mem_cons_of_mem c hm))

/-- The `.pwr`-pattern scan succeeds on digits + `.pwr` and captures the
digit block. -/
theorem pwrScan_digits {l : List Char} (hne : l ≠ [])
    (hd : ∀ c ∈ l, c.isDigit = true) :
    pwrScan (l ++ ['.', 'p', 'w', 'r']) = some (digitsVal l) := by
  obtain ⟨d, ds, rfl⟩ := List.exists_cons_of_ne_nil hne
  have hdd : d.isDigit = true := hd d (List.mem_cons_self d ds)
  have hdrop : List.dropWhile Char.isDigit ((d :: ds) ++ ['.', 'p', 'w', 'r'])
      = ['.', 'p', 'w', 'r'] := by
    rw [dropWhile_append_of_all _ hd]
    rfl
  rw [List.cons_append, pwrScan, ← List.cons_append, hdrop]
  rw [if_pos hdd, if_pos (by decide), takeWhile_append_of_all _ hd]
  simp

/-- The `.pwr`-pattern scan fails on a list with no dot at all. -/
theorem pwrScan_eq_none {l : List Char} (h : '.' ∉ l) : pwrScan l = none := by
  induction l with
  | nil => rfl
  | cons c cs ih =>
    have ihcs : pwrScan cs = none :=
      ih (fun hm => h (List.mem_cons_of_mem c hm))
    by_cases hc : c.isDigit = true
    · have hpre : List.isPrefixOf ['.', 'p', 'w', 'r']
          (List.dropWhile Char.isDigit (c :: cs)) = false := by
        by_contra hp
        rw [Bool.not_eq_false] at hp
        have hpref : ['.', 'p', 'w', 'r'] <+: List.dropWhile Char.isDigit (c :: cs) :=
          List.isPrefixOf_iff_prefix.mp hp
        obtain ⟨t, ht⟩ := hpref
        have hmem : '.' ∈ List.dropWhile Char.isDigit (c :: cs) := by
          rw [← ht]
          simp
        exact h ((List.dropWhile_sublist Char.isDigit).mem hmem)
      rw [pwrScan, if_pos hc, hpre]
      simp [ihcs]
    · rw [pwrScan, if_neg hc]
      exact ihcs

/-- Decimal value of a digit block extended by one digit on the right. -/
theorem digitsVal_append_singleton (xs : List Char) (c : Char) :
    digitsVal (xs ++ [c]) = 10 * digitsVal xs + (c.toNat - 48) := by
  simp [digitsVal, List.foldl_append]

/-- The decimal digit characters of `n` are all digit characters. -/
theorem natDigits_all_digit (n : Nat) : ∀ c ∈ natDigits n, c.isDigit = true := by
  induction n using Nat.strong_induction_on with
  | _ n ih =>
    rw [natDigits.eq_def]
    by_cases h : n < 10
    · rw [if_pos h]
      intro c hc
      rw [List.mem_singleton] at hc
      exact hc ▸ digitChar_isDigit h
    · rw [if_neg h]
      intro c hc
      rcases List.mem_append.mp hc with hc | hc
      · exact ih (n / 10) (Nat.div_lt_self (by omega) (by omega)) c hc
      · rw [List.mem_singleton] at hc
        exact hc ▸ digitChar_isDigit (Nat.mod_lt n (by omega))

/-- The decimal digit characters of `n` form a nonempty list. -/
theorem natDigits_ne_nil (n : Nat) : natDigits n ≠ [] := by
  rw [natDigits.eq_def]
  by_cases h : n < 10
  · rw [if_pos h]
    exact List.cons_ne_nil _ _
  · rw [if_neg h]
    exact List.append_ne_nil_of_right_ne_nil _ (List.cons_ne_nil _ _)

/-- Round trip: the decimal value of the digit characters of `n` is `n`. -/
theorem digitsVal_natDigits (n : Nat) : digitsVal (natDigits n) = n := by
  induction n using Nat.strong_induction_on with
  | _ n ih =>
    rw [natDigits.eq_def]
    by_cases h : n < 10
    · rw [if_pos h]
      have : digitsVal [Nat.digitChar n] = (Nat.digitChar n).toNat - 48 := by
        simp [digitsVal]
      rw [this, digitChar_toNat h]
      omega
    · rw [if_neg h, digitsVal_append_singleton,
        ih (n / 10) (Nat.div_lt_self (by omega) (by omega)),
        digitChar_toNat (Nat.mod_lt n (by omega))]
      omega

/-- With enough fuel, `Nat.toDigitsCore` computes `natDigits` (plus the
accumulator). -/
theorem toDigitsCore_eq_natDigits :
    ∀ (fuel n : Nat) (ds : List Char), n < fuel →
      Nat.toDigitsCore 10 fuel n ds = natDigits n ++ ds := by
  intro fuel
  induction fuel with
  | zero => intro n ds h; omega
  | succ fuel ih =>
    intro n ds h
    rw [Nat.toDigitsCore]
    by_cases h10 : n / 10 = 0
    · rw [if_pos h10, natDigits.eq_def, if_pos (by omega : n < 10)]
      have : n % 10 = n := Nat.mod_eq_of_lt (by omega)
      rw [this]
      rfl
    · rw [if_neg h10]
      have hn : 0 < n := by
        rcases Nat.eq_zero_or_pos n with h0 | h0
        · subst h0; simp at h10
        · exact h0
      have hdiv : n / 10 < fuel := by
        have := Nat.div_lt_self hn (by omega : 1 < 10)
        omega
      rw [ih (n / 10) _ hdiv, natDigits.eq_def (n := n),
        if_neg (by
          intro hlt
          exact h10 (Nat.div_eq_of_lt hlt)), List.append_assoc]
      rfl

/-- The characters of `Nat.repr n` are exactly `natDigits n`. -/
theorem repr_data (n : Nat) : (Nat.repr n).data = natDigits n := by
  show (List.asString (Nat.toDigitsCore 10 (n + 1) n [])).data = natDigits n
  rw [toDigitsCore_eq_natDigits (n + 1) n [] (by omega), List.append_nil]
  rfl

/-- A non-digit character does not occur among the digit characters of
`n`. -/
theorem not_mem_natDigits {n : Nat} {d : Char} (hd : d.isDigit = false) :
    d ∉ natDigits n := by
  intro hm
  exact isDigit_ne d (natDigits_all_digit n d hm) hd rfl

/-- `takeWhile` keeps a list all of whose elements satisfy the predicate. -/
theorem takeWhile_all_eq_self {p : Char → Bool} {xs : List Char}
    (h : ∀ c ∈ xs, p c = true) : xs.takeWhile p = xs := by
  have := takeWhile_append_of_all (p := p) [] h
  simpa using this

/-- The leading-decimal parse of a pure digit block yields its value. -/
theorem jsDecimal_natDigits (n : Nat) : jsDecimal (natDigits n) = some n := by
  rw [jsDecimal, takeWhile_all_eq_self (natDigits_all_digit n)]
  simp [natDigits_ne_nil n, digitsVal_natDigits]

/-- The unsigned `parseInt` of the digit characters of `n` is `n` (the
hexadecimal branch cannot fire because the second character is a digit). -/
theorem jsParseIntUnsigned_natDigits (n : Nat) :
    jsParseIntUnsigned (natDigits n) = some n := by
  obtain ⟨d, ds, hds⟩ := List.exists_cons_of_ne_nil (natDigits_ne_nil n)
  cases ds with
  | nil =>
    rw [hds, jsParseIntUnsigned, ← hds, jsDecimal_natDigits]
    intro c0 c1 rest hcontra
    simp at hcontra
  | cons e es =>
    have he : e.isDigit = true := by
      apply natDigits_all_digit n
      rw [hds]
      exact List.mem_cons_of_mem d (List.mem_cons_self e es)
    have hguard : ¬(d = '0' ∧ (e = 'x' ∨ e = 'X')) := by
      rintro ⟨-, rfl | rfl⟩ <;> simp at he
    rw [hds, jsParseIntUnsigned, if_neg hguard, ← hds, jsDecimal_natDigits]

/-- `parseInt` of a string whose characters are the digits of `n` yields
`n`. -/
theorem jsParseInt_digits {s : String} {n : Nat} (hdata : s.data = natDigits n) :
    jsParseInt s = some (n : Int) := by
  obtain ⟨d, ds, hds⟩ := List.exists_cons_of_ne_nil (natDigits_ne_nil n)
  have hd : d.isDigit = true := by
    apply natDigits_all_digit n
    rw [hds]
    exact List.mem_cons_self d ds
  have hspace : isJsSpace d = false := isJsSpace_eq_false_of_isDigit hd
  rw [jsParseInt, hdata, hds, List.dropWhile_cons, hspace]
  simp only [Bool.false_eq_true, if_false]
  rw [if_neg (isDigit_ne '-' hd (by decide)), if_neg (isDigit_ne '+' hd (by decide)),
    ← hds, jsParseIntUnsigned_natDigits]
  rfl

/-- `parseInt` of a minus sign followed by the digits of `n` yields `-n`. -/
theorem jsParseInt_neg_digits {s : String} {n : Nat}
    (hdata : s.data = '-' :: natDigits n) : jsParseInt s = some (-(n : Int)) := by
  have h1 : jsParseIntUnsigned (natDigits n) = some n := jsParseIntUnsigned_natDigits n
  rw [jsParseInt, hdata]
  simp [List.dropWhile_cons, (by decide : isJsSpace '-' = false), h1]

/-- Unrolling of the `needsIntermediatePatches` loop as a mapped range. -/
theorem intermediateLoop_eq (fuel : Nat) :
    ∀ i : Int, intermediateLoop fuel i =
      (List.range fuel).map (fun k : Nat => toString (i + (k : Int)) ++ ".pwr") := by
  induction fuel with
  | zero => intro i; rfl
  | succ fuel ih =>
    intro i
    rw [intermediateLoop, ih (i + 1), List.range_succ_eq_map]
    simp only [List.map_cons, List.map_map]
    refine congrArg₂ List.cons (by norm_num) ?_
    apply List.map_congr_left
    intro k _
    simp only [Function.comp_apply]
    have harith : i + ((k : Int) + 1) = i + 1 + k := by ring
    rw [Nat.succ_eq_add_one]
    push_cast
    rw [harith]

/-- Unrolling of the `discoverAvailableVersions` loop: it probes the
descending run of builds and keeps exactly those whose probe succeeds. -/
theorem probeLoop_eq (probe : Int → String → Bool) (branch : String) (fuel : Nat) :
    ∀ i : Int,
      (probeLoop probe branch fuel i).1 =
        (List.range fuel).map (fun k : Nat => i - (k : Int)) ∧
      (probeLoop probe branch fuel i).2 =
        (((List.range fuel).map (fun k : Nat => i - (k : Int))).filter
          (fun b => probe b branch)).map (fun b => toString b ++ ".pwr") := by
  induction fuel with
  | zero => intro i; exact ⟨rfl, rfl⟩
  | succ fuel ih =>
    intro i
    obtain ⟨ih1, ih2⟩ := ih (i - 1)
    have hmap : (List.range (fuel + 1)).map (fun k : Nat => i - (k : Int)) =
        i :: (List.range fuel).map (fun k : Nat => (i - 1) - (k : Int)) := by
      rw [List.range_succ_eq_map]
      simp only [List.map_cons, List.map_map]
      refine congrArg₂ List.cons (by norm_num) ?_
      apply List.map_congr_left
      intro k _
      simp only [Function.comp_apply]
      push_cast
      ring
    refine ⟨?_, ?_⟩
    · rw [probeLoop]
      simp only [hmap, ih1]
    · rw [probeLoop]
      simp only [hmap, ih2, List.filter_cons]
      by_cases hp : probe i branch = true
      · simp [hp]
      · rw [Bool.not_eq_true] at hp
        simp [hp]

/-- Characters of a concatenation of strings. -/
theorem str_data_append (a b : String) : (a ++ b).data = a.data ++ b.data := by
  cases a
  cases b
  rfl

/-- A string whose character list is nonempty is not the empty string. -/
theorem str_ne_empty_of_data {s : String} {c : Char} {l : List Char}
    (h : s.data = c :: l) : s ≠ "" := by
  intro he
  rw [he] at h
  cases h

/-- `extractVersionNumber` on a version of the form `v<n><suffix>` with a
suffix not starting in a digit: the `v` pattern fires and yields `n`. -/
theorem extractVersionNumber_vForm (n : Nat) (suf : String)
    (hsuf : headIsDigit suf.data = false) :
    extractVersionNumber (some ("v" ++ Nat.repr n ++ suf)) = (n : Int) := by
  have hdata : ("v" ++ Nat.repr n ++ suf).data = 'v' :: (natDigits n ++ suf.data) := by
    rw [str_data_append, str_data_append, repr_data]
    rfl
  have hv : vScan ("v" ++ Nat.repr n ++ suf).data = some n := by
    rw [hdata, vScan_v_digits suf.data (natDigits_ne_nil n) (natDigits_all_digit n) hsuf,
      digitsVal_natDigits]
  rw [extractVersionNumber, if_neg (str_ne_empty_of_data hdata), hv]

/-- `extractVersionNumber` on a version of the form `<n>.pwr`: the `v`
pattern cannot fire (no `v` occurs), the `.pwr` pattern yields `n`. -/
theorem extractVersionNumber_pwrForm (n : Nat) :
    extractVersionNumber (some (Nat.repr n ++ ".pwr")) = (n : Int) := by
  have hdata : (Nat.repr n ++ ".pwr").data = natDigits n ++ ['.', 'p', 'w', 'r'] := by
    rw [str_data_append, repr_data]
  obtain ⟨d, ds, hds⟩ := List.exists_cons_of_ne_nil (natDigits_ne_nil n)
  have hdata2 : (Nat.repr n ++ ".pwr").data = d :: (ds ++ ['.', 'p', 'w', 'r']) := by
    rw [hdata, hds]
    rfl
  have hnov : vScan (Nat.repr n ++ ".pwr").data = none := by
    rw [hdata]
    apply vScan_eq_none
    intro hm
    rcases List.mem_append.mp hm with hm | hm
    · exact not_mem_natDigits (by decide) hm
    · simp at hm
  have hpwr : pwrScan (Nat.repr n ++ ".pwr").data = some n := by
    rw [hdata, pwrScan_digits (natDigits_ne_nil n) (natDigits_all_digit n),
      digitsVal_natDigits]
  rw [extractVersionNumber, if_neg (str_ne_empty_of_data hdata2), hnov, hpwr]

/-- `extractVersionNumber` on a bare decimal numeral: both patterns fail
and the `parseInt` fallback yields `n`. -/
theorem extractVersionNumber_intForm (n : Nat) :
    extractVersionNumber (some (Nat.repr n)) = (n : Int) := by
  have hdata : (Nat.repr n).data = natDigits n := repr_data n
  obtain ⟨d, ds, hds⟩ := List.exists_cons_of_ne_nil (natDigits_ne_nil n)
  have hnov : vScan (Nat.repr n).data = none := by
    rw [hdata]
    exact vScan_eq_none (not_mem_natDigits (by decide))
  have hnop : pwrScan (Nat.repr n).data = none := by
    rw [hdata]
    exact pwrScan_eq_none (not_mem_natDigits (by decide))
  have hparse : jsParseInt (Nat.repr n) = some (n : Int) := jsParseInt_digits hdata
  rw [extractVersionNumber, if_neg (str_ne_empty_of_data (hdata.trans hds)), hnov, hnop,
    hparse]
  rfl

/-- `extractVersionNumber` on a negative decimal numeral: both patterns
fail and the `parseInt` fallback yields `-n`. -/
theorem extractVersionNumber_negForm (n : Nat) :
    extractVersionNumber (some ("-" ++ Nat.repr n)) = -(n : Int) := by
  have hdata : ("-" ++ Nat.repr n).data = '-' :: natDigits n := by
    rw [str_data_append, repr_data]
    rfl
  have hnov : vScan ("-" ++ Nat.repr n).data = none := by
    rw [hdata]
    apply vScan_eq_none
    intro hm
    rcases List.mem_cons.mp hm with hm | hm
    · cases hm
    · exact not_mem_natDigits (by decide) hm
  have hnop : pwrScan ("-" ++ Nat.repr n).data = none := by
    rw [hdata]
    apply pwrScan_eq_none
    intro hm
    rcases List.mem_cons.mp hm with hm | hm
    · cases hm
    · exact not_mem_natDigits (by decide) hm
  have hparse : jsParseInt ("-" ++ Nat.repr n) = some (-(n : Int)) :=
    jsParseInt_neg_digits hdata
  rw [extractVersionNumber, if_neg (str_ne_empty_of_data hdata), hnov, hnop, hparse]
  rfl

/-- Truthiness is invariant under the `|| null` normalisation. -/
theorem jsTruthy_jsOrNullStr (o : Option String) :
    jsTruthy (jsOrNullStr o) = jsTruthy o := by
  cases o with
  | none => rfl
  | some s =>
    by_cases h : s = "" <;> simp [jsOrNullStr, jsTruthy, h]

/-- Guard characterisation of `canUseDifferentialUpdate`: it returns
`true` exactly when all five guards pass. -/
theorem canUse_true_iff (cur : Option String) (tdo : Option VersionDetails) :
    canUseDifferentialUpdate cur tdo = true ↔
      ∃ td, tdo = some td ∧ jsTruthy td.differentialUrl = true ∧
        td.isDifferential = true ∧ jsTruthy cur = true ∧
        extractVersionNumber cur = extractVersionNumber td.sourceVersion := by
  cases tdo with
  | none => simp [canUseDifferentialUpdate]
  | some td =>
    simp only [canUseDifferentialUpdate]
    constructor
    · intro h
      by_cases h1 : jsTruthy td.differentialUrl = false
      · rw [if_pos h1] at h
        cases h
      · rw [if_neg h1] at h
        by_cases h2 : td.isDifferential = false
        · rw [if_pos h2] at h
          cases h
        · rw [if_neg h2] at h
          by_cases h3 : jsTruthy cur = false
          · rw [if_pos h3] at h
            cases h
          · rw [if_neg h3] at h
            exact ⟨td, rfl, Bool.not_eq_false _ ▸ h1, Bool.not_eq_false _ ▸ h2,
              Bool.not_eq_false _ ▸ h3, of_decide_eq_true h⟩
    · rintro ⟨td', htd, h1, h2, h3, h4⟩
      injection htd with he
      subst he
      simp [h1, h2, h3, h4]

/-- Projection of `extractVersionDetails`: the delta URL field. -/
theorem evd_differentialUrl (os arch : String) (m : Int → Option PatchInfo)
    (tv : Option String) (br : String) :
    (extractVersionDetails os arch m tv br).differentialUrl =
      jsOrNullStr ((m (extractVersionNumber tv)).bind PatchInfo.patch_url) := rfl

/-- Projection of `extractVersionDetails`: the proper-delta flag. -/
theorem evd_isDifferential (os arch : String) (m : Int → Option PatchInfo)
    (tv : Option String) (br : String) :
    (extractVersionDetails os arch m tv br).isDifferential =
      ((m (extractVersionNumber tv)).map PatchInfo.proper_patch).getD false := rfl

/-- Projection of `extractVersionDetails`: the source-version field. -/
theorem evd_sourceVersion (os arch : String) (m : Int → Option PatchInfo)
    (tv : Option String) (br : String) :
    (extractVersionDetails os arch m tv br).sourceVersion =
      (match (m (extractVersionNumber tv)).bind PatchInfo.fromBuild with
        | some k =>
          if k ≠ 0 then some (toString k ++ ".pwr")
          else if extractVersionNumber tv - 1 > 0 then
            some (toString (extractVersionNumber tv - 1) ++ ".pwr")
          else none
        | none =>
          if extractVersionNumber tv - 1 > 0 then
            some (toString (extractVersionNumber tv - 1) ++ ".pwr")
          else none) := rfl

end Lemmas

/-- Projection of `extractVersionDetails`: the full-archive URL field. -/
theorem evd_fullUrl (os arch : String) (m : Int → Option PatchInfo)
    (tv : Option String) (br : String) :
    (extractVersionDetails os arch m tv br).fullUrl =
      jsOrStr ((m (extractVersionNumber tv)).bind PatchInfo.original_url)
        (buildArchiveUrl os arch (extractVersionNumber tv) br) := rfl

/-- Projection of `extractVersionDetails`: the checksum field. -/
theorem evd_checksum (os arch : String) (m : Int → Option PatchInfo)
    (tv : Option String) (br : String) :
    (extractVersionDetails os arch m tv br).checksum =
      jsOrNullStr ((m (extractVersionNumber tv)).bind PatchInfo.patch_hash) := rfl

/-- C1: `canUseDifferentialUpdate(currentVersion, targetDetails)` returns
`true` iff all five guards hold — `targetDetails` present, its
`differentialUrl` present (JS-truthy), `isDifferential` true,
`currentVersion` present (JS-truthy), and the parsed current build equal
to the parsed source build; failing any single guard yields `false`.  For
current `"v5"` against a plan item built from a manifest entry with
`from = 5`, `patch_url = "x"`, `proper_patch = true` it returns `true`,
and for current `"v4"` it returns `false`. -/
theorem C1_canUseDifferentialUpdate_guards :
    (∀ (cur : Option String) (tdo : Option VersionDetails),
      canUseDifferentialUpdate cur tdo = true ↔
        ∃ td, tdo = some td ∧ jsTruthy td.differentialUrl = true ∧
          td.isDifferential = true ∧ jsTruthy cur = true ∧
          extractVersionNumber cur = extractVersionNumber td.sourceVersion) ∧
    canUseDifferentialUpdate (some "v5")
      (some (extractVersionDetails "windows" "amd64" exampleManifest
        (some "v6") "release")) = true ∧
    canUseDifferentialUpdate (some "v4")
      (some (extractVersionDetails "windows" "amd64" exampleManifest
        (some "v6") "release")) = false :=
  ⟨canUse_true_iff, by decide, by decide⟩

/-- C3: `extractVersionNumber` returns `n` on `v<n><suffix>` for any
suffix not starting in a digit (so in particular on `"v<n>"` and
`"v<n>-<os>-<arch>.<ext>"`), returns `n` on `"<n>.pwr"`, returns the
integer on bare (also negative) decimal numerals, returns `0` on `null`,
on `""`, and whenever all three patterns fail, and tries the three
patterns in exactly this order (witnessed by `"v3-1.pwr" ↦ 3` where the
`.pwr` pattern would give 1, `"2v3" ↦ 3` where the bare parse would give
2, and `"1x2.pwr" ↦ 2` where the bare parse would give 1). -/
theorem C3_extractVersionNumber_spec :
    (∀ (n : Nat) (suf : String), headIsDigit suf.data = false →
      extractVersionNumber (some ("v" ++ Nat.repr n ++ suf)) = (n : Int)) ∧
    (∀ n : Nat, extractVersionNumber (some (Nat.repr n ++ ".pwr")) = (n : Int)) ∧
    (∀ n : Nat, extractVersionNumber (some (Nat.repr n)) = (n : Int)) ∧
    (∀ n : Nat, extractVersionNumber (some ("-" ++ Nat.repr n)) = -(n : Int)) ∧
    extractVersionNumber none = 0 ∧
    extractVersionNumber (some "") = 0 ∧
    (∀ s : String, s ≠ "" → vScan s.data = none → pwrScan s.data = none →
      jsParseInt s = none → extractVersionNumber (some s) = 0) ∧
    extractVersionNumber (some "v3-1.pwr") = 3 ∧
    extractVersionNumber (some "2v3") = 3 ∧
    extractVersionNumber (some "1x2.pwr") = 2 := by
  refine ⟨extractVersionNumber_vForm, extractVersionNumber_pwrForm,
    extractVersionNumber_intForm, extractVersionNumber_negForm, rfl, rfl,
    ?_, by decide, by decide, by decide⟩
  intro s hne h1 h2 h3
  rw [extractVersionNumber, if_neg hne, h1, h2, h3]
  rfl

/-- C3 witness: the universally quantified parts of
`C3_extractVersionNumber_spec` applied at concrete inputs. -/
theorem C3_extractVersionNumber_spec_witness :
    extractVersionNumber (some ("v" ++ Nat.repr 12 ++ "-windows-amd64.pwr")) = 12 ∧
    extractVersionNumber (some (Nat.repr 7 ++ ".pwr")) = 7 ∧
    extractVersionNumber (some "no-digits-here!") = 0 :=
  ⟨C3_extractVersionNumber_spec.1 12 "-windows-amd64.pwr" (by decide),
    C3_extractVersionNumber_spec.2.1 7,
    C3_extractVersionNumber_spec.2.2.2.2.2.2.1 "no-digits-here!" (by decide)
      (by decide) (by decide) (by decide)⟩

/-- Membership in an ascending integer run. -/
theorem mem_ascRange (lo hi i : Int) : i ∈ ascRange lo hi ↔ lo ≤ i ∧ i ≤ hi := by
  simp only [ascRange, List.mem_map, List.mem_range]
  constructor
  · rintro ⟨k, hk, rfl⟩
    omega
  · rintro ⟨h1, h2⟩
    exact ⟨(i - lo).toNat, by omega, by omega⟩

/-- With a truthy current version, `needsIntermediatePatches` is the
ascending run `current+1 .. target` rendered as `.pwr` filenames. -/
theorem needsIntermediatePatches_eq (cur tgt : Option String)
    (h : jsTruthy cur = true) :
    needsIntermediatePatches cur tgt =
      (ascRange (extractVersionNumber cur + 1) (extractVersionNumber tgt)).map
        (fun i => toString i ++ ".pwr") := by
  have hne : ¬(jsTruthy cur = false) := by
    rw [h]
    simp
  rw [needsIntermediatePatches, if_neg hne]
  show intermediateLoop
      (extractVersionNumber tgt - extractVersionNumber cur).toNat
      (extractVersionNumber cur + 1) = _
  rw [intermediateLoop_eq, ascRange, List.map_map]
  have harith : extractVersionNumber tgt + 1 - (extractVersionNumber cur + 1) =
      extractVersionNumber tgt - extractVersionNumber cur := by ring
  rw [harith]
  rfl

/-- Both components of `discoverAvailableVersions`: the probed builds are
the descending run from the parsed latest build down to
`max 1 (latest - maxProbe)`, and the availables are the probe-positive
subset in the same order. -/
theorem discoverAvailableVersions_eq (probe : Int → String → Bool)
    (latestKnown : Option String) (branch : String) (maxProbe : Int) :
    (discoverAvailableVersions probe latestKnown branch maxProbe).1 =
      descRange (extractVersionNumber latestKnown)
        (max 1 (extractVersionNumber latestKnown - maxProbe)) ∧
    (discoverAvailableVersions probe latestKnown branch maxProbe).2 =
      ((descRange (extractVersionNumber latestKnown)
          (max 1 (extractVersionNumber latestKnown - maxProbe))).filter
        (fun b => probe b branch)).map (fun b => toString b ++ ".pwr") :=
  probeLoop_eq probe branch
    (extractVersionNumber latestKnown + 1 -
      max 1 (extractVersionNumber latestKnown - maxProbe)).toNat
    (extractVersionNumber latestKnown)

/-- C4: `needsIntermediatePatches("v5", "v8") = ["6.pwr","7.pwr","8.pwr"]`,
`needsIntermediatePatches(null, "v8") = []` (and more generally the result
is empty whenever the current version is absent/falsy); with a current
version present, the result is exactly the filename `<i>.pwr` for every
build `i` with `current < i ≤ target`, listed in ascending order (the
mapped ascending run). -/
theorem C4_needsIntermediatePatches_spec :
    needsIntermediatePatches (some "v5") (some "v8") = ["6.pwr", "7.pwr", "8.pwr"] ∧
    needsIntermediatePatches none (some "v8") = [] ∧
    (∀ cur tgt : Option String, jsTruthy cur = false →
      needsIntermediatePatches cur tgt = []) ∧
    (∀ cur tgt : Option String, jsTruthy cur = true →
      needsIntermediatePatches cur tgt =
        (ascRange (extractVersionNumber cur + 1) (extractVersionNumber tgt)).map
          (fun i => toString i ++ ".pwr")) ∧
    (∀ cur tgt : Option String, jsTruthy cur = true → ∀ s : String,
      s ∈ needsIntermediatePatches cur tgt ↔
        ∃ i : Int, extractVersionNumber cur < i ∧ i ≤ extractVersionNumber tgt ∧
          s = toString i ++ ".pwr") := by
  refine ⟨by decide, rfl, ?_, needsIntermediatePatches_eq, ?_⟩
  · intro cur tgt h
    rw [needsIntermediatePatches, if_pos h]
  · intro cur tgt h s
    rw [needsIntermediatePatches_eq cur tgt h, List.mem_map]
    constructor
    · rintro ⟨i, hi, rfl⟩
      rw [mem_ascRange] at hi
      exact ⟨i, by omega, by omega, rfl⟩
    · rintro ⟨i, h1, h2, rfl⟩
      exact ⟨i, (mem_ascRange _ _ _).mpr ⟨by omega, h2⟩, rfl⟩

/-- C4 witness: the hypothesis-carrying parts of
`C4_needsIntermediatePatches_spec` applied at concrete inputs. -/
theorem C4_needsIntermediatePatches_spec_witness :
    needsIntermediatePatches (some "") (some "v8") = [] ∧
    needsIntermediatePatches (some "v5") (some "v8") =
      (ascRange (extractVersionNumber (some "v5") + 1)
        (extractVersionNumber (some "v8"))).map (fun i => toString i ++ ".pwr") ∧
    ("6.pwr" ∈ needsIntermediatePatches (some "v5") (some "v8") ↔
      ∃ i : Int, extractVersionNumber (some "v5") < i ∧
        i ≤ extractVersionNumber (some "v8") ∧ "6.pwr" = toString i ++ ".pwr") :=
  ⟨C4_needsIntermediatePatches_spec.2.2.1 (some "") (some "v8") (by decide),
    C4_needsIntermediatePatches_spec.2.2.2.1 (some "v5") (some "v8") (by decide),
    C4_needsIntermediatePatches_spec.2.2.2.2 (some "v5") (some "v8") (by decide) "6.pwr"⟩

/-- C10: whenever the parsed current build is greater than or equal to the
parsed target build (no-op transitions and downgrades included),
`needsIntermediatePatches` returns the empty list. -/
theorem C10_needsIntermediatePatches_no_downgrade (cur tgt : Option String)
    (h : extractVersionNumber tgt ≤ extractVersionNumber cur) :
    needsIntermediatePatches cur tgt = [] := by
  rw [needsIntermediatePatches]
  by_cases hc : jsTruthy cur = false
  · rw [if_pos hc]
  · rw [if_neg hc]
    show intermediateLoop
        (extractVersionNumber tgt - extractVersionNumber cur).toNat
        (extractVersionNumber cur + 1) = []
    have h0 : (extractVersionNumber tgt - extractVersionNumber cur).toNat = 0 := by
      omega
    rw [h0]
    rfl

/-- C10 witness: a downgrade (`v8 → v5`) and a no-op (`v8 → v8`) both
yield the empty plan. -/
theorem C10_needsIntermediatePatches_no_downgrade_witness :
    needsIntermediatePatches (some "v8") (some "v5") = [] ∧
    needsIntermediatePatches (some "v8") (some "v8") = [] :=
  ⟨C10_needsIntermediatePatches_no_downgrade (some "v8") (some "v5") (by decide),
    C10_needsIntermediatePatches_no_downgrade (some "v8") (some "v8") (by decide)⟩

/-- C8: with the per-build existence check as an oracle,
`discoverAvailableVersions` probes exactly the builds from the parsed
latest build down to `max 1 (latest - maxProbe)` inclusive, in descending
order regardless of probe outcomes (so it does not stop at the first
absent build), and returns exactly `<i>.pwr` for the probe-positive builds
in that same order; for `latestKnown = "v10"` and `maxProbe = 5` it probes
builds 10, 9, 8, 7, 6, 5 in that order. -/
theorem C8_discoverAvailableVersions_spec :
    (∀ (probe : Int → String → Bool) (latestKnown : Option String) (branch : String)
        (maxProbe : Int),
      (discoverAvailableVersions probe latestKnown branch maxProbe).1 =
        descRange (extractVersionNumber latestKnown)
          (max 1 (extractVersionNumber latestKnown - maxProbe)) ∧
      (discoverAvailableVersions probe latestKnown branch maxProbe).2 =
        ((descRange (extractVersionNumber latestKnown)
            (max 1 (extractVersionNumber latestKnown - maxProbe))).filter
          (fun b => probe b branch)).map (fun b => toString b ++ ".pwr")) ∧
    (∀ (probe : Int → String → Bool) (branch : String),
      (discoverAvailableVersions probe (some "v10") branch 5).1 =
        [10, 9, 8, 7, 6, 5]) := by
  refine ⟨discoverAvailableVersions_eq, ?_⟩
  intro probe branch
  rw [(discoverAvailableVersions_eq probe (some "v10") branch 5).1]
  decide

/-- C5: behaviour of `fetchNewAPI` over the cache cell
`(apiCache, apiCacheTime)`.  A call with a cache younger than 60 s returns
the cached snapshot unchanged for every network outcome (so no fetch is
consulted); a fetch after the window that succeeds with a well-formed
payload returns it and replaces both cache and timestamp; a fetch that
fails (network error, falsy body, or body without a truthy `hytale` key)
returns an existing cache unchanged; with no cache, a network error is
propagated and a malformed body surfaces as the
`Invalid API response structure` error. -/
theorem C5_fetchNewAPI_cache_spec :
    (∀ (st : CacheState) (now : Int) (net : Except String (Option ApiData)) (d : ApiData),
      st.apiCache = some d → now - st.apiCacheTime < API_CACHE_DURATION →
      fetchNewAPI st now net = (.ok d, st)) ∧
    (∀ (st : CacheState) (now : Int) (d : ApiData),
      (st.apiCache = none ∨ API_CACHE_DURATION ≤ now - st.apiCacheTime) →
      d.hytaleTruthy = true →
      fetchNewAPI st now (.ok (some d)) =
        (.ok d, { apiCache := some d, apiCacheTime := now })) ∧
    (∀ (st : CacheState) (now : Int) (net : Except String (Option ApiData)) (d : ApiData),
      st.apiCache = some d → API_CACHE_DURATION ≤ now - st.apiCacheTime →
      ((∃ e, net = .error e) ∨ net = .ok none ∨
        (∃ d2, net = .ok (some d2) ∧ d2.hytaleTruthy = false)) →
      fetchNewAPI st now net = (.ok d, st)) ∧
    (∀ (st : CacheState) (now : Int) (e : String), st.apiCache = none →
      fetchNewAPI st now (.error e) = (.error e, st)) ∧
    (∀ (st : CacheState) (now : Int), st.apiCache = none →
      fetchNewAPI st now (.ok none) =
        (.error "Invalid API response structure", st)) ∧
    (∀ (st : CacheState) (now : Int) (d : ApiData), st.apiCache = none →
      d.hytaleTruthy = false →
      fetchNewAPI st now (.ok (some d)) =
        (.error "Invalid API response structure", st)) := by
  refine ⟨?_, ?_, ?_, ?_, ?_, ?_⟩
  · intro st now net d hc hf
    simp only [fetchNewAPI, hc]
    rw [if_pos hf]
  · intro st now d hdisj htrue
    rcases hdisj with hc | hstale
    · simp [fetchNewAPI, fetchNewAPITry, hc, htrue]
    · cases hc : st.apiCache with
      | none => simp [fetchNewAPI, fetchNewAPITry, hc, htrue]
      | some cached =>
        simp only [fetchNewAPI, hc]
        rw [if_neg (by omega)]
        simp [fetchNewAPITry, htrue]
  · intro st now net d hc hstale hfail
    simp only [fetchNewAPI, hc]
    rw [if_neg (by omega)]
    rcases hfail with ⟨e, rfl⟩ | rfl | ⟨d2, rfl, hfalse⟩
    · simp [fetchNewAPITry, hc]
    · simp [fetchNewAPITry, hc]
    · simp [fetchNewAPITry, hc, hfalse]
  · intro st now e hc
    simp [fetchNewAPI, fetchNewAPITry, hc]
  · intro st now hc
    simp [fetchNewAPI, fetchNewAPITry, hc]
  · intro st now d hc hfalse
    simp [fetchNewAPI, fetchNewAPITry, hc, hfalse]

/-- C5 witness: the parts of `C5_fetchNewAPI_cache_spec` applied at
concrete cache states, times and network outcomes. -/
theorem C5_fetchNewAPI_cache_spec_witness :
    fetchNewAPI ⟨some ⟨true, 1⟩, 1000⟩ 2000 (.error "down") =
      (.ok ⟨true, 1⟩, ⟨some ⟨true, 1⟩, 1000⟩) ∧
    fetchNewAPI ⟨none, 0⟩ 0 (.ok (some ⟨true, 2⟩)) =
      (.ok ⟨true, 2⟩, ⟨some ⟨true, 2⟩, 0⟩) ∧
    fetchNewAPI ⟨some ⟨true, 1⟩, 0⟩ 60000 (.error "down") =
      (.ok ⟨true, 1⟩, ⟨some ⟨true, 1⟩, 0⟩) ∧
    fetchNewAPI ⟨none, 0⟩ 0 (.error "down") = (.error "down", ⟨none, 0⟩) ∧
    fetchNewAPI ⟨none, 0⟩ 0 (.ok none) =
      (.error "Invalid API response structure", ⟨none, 0⟩) ∧
    fetchNewAPI ⟨none, 0⟩ 0 (.ok (some ⟨false, 3⟩)) =
      (.error "Invalid API response structure", ⟨none, 0⟩) :=
  ⟨C5_fetchNewAPI_cache_spec.1 ⟨some ⟨true, 1⟩, 1000⟩ 2000 (.error "down") ⟨true, 1⟩
      rfl (by decide),
    C5_fetchNewAPI_cache_spec.2.1 ⟨none, 0⟩ 0 ⟨true, 2⟩ (Or.inl rfl) rfl,
    C5_fetchNewAPI_cache_spec.2.2.1 ⟨some ⟨true, 1⟩, 0⟩ 60000 (.error "down") ⟨true, 1⟩
      rfl (by decide) (Or.inl ⟨"down", rfl⟩),
    C5_fetchNewAPI_cache_spec.2.2.2.1 ⟨none, 0⟩ 0 "down" rfl,
    C5_fetchNewAPI_cache_spec.2.2.2.2.1 ⟨none, 0⟩ 0 rfl,
    C5_fetchNewAPI_cache_spec.2.2.2.2.2 ⟨none, 0⟩ 0 ⟨false, 3⟩ rfl rfl⟩

/-- C6: `validateChecksum` is vacuously `true` for an absent (or falsy)
expected checksum, for every filesystem — including an unreadable file, so
the file is not consulted; with an expected digest supplied and the file
readable, it returns exactly the boolean of the equality between the
computed SHA-256 hex digest and the expectation, under exact
case-sensitive string comparison (mismatch gives `Except.ok false`, not an
error). -/
theorem C6_validateChecksum_spec :
    (∀ (sha256hex : List UInt8 → String) (fsRead : String → Except String (List UInt8))
        (path : String),
      validateChecksum sha256hex fsRead path none = .ok true) ∧
    (∀ (sha256hex : List UInt8 → String) (fsRead : String → Except String (List UInt8))
        (path e : String) (contents : List UInt8), e ≠ "" →
      fsRead path = .ok contents →
      validateChecksum sha256hex fsRead path (some e) =
        .ok (decide (sha256hex contents = e))) ∧
    validateChecksum (fun _ => "ab") (fun _ => .error "unreadable") "p" none =
      .ok true ∧
    validateChecksum (fun _ => "ab") (fun _ => .ok []) "p" (some "AB") = .ok false ∧
    validateChecksum (fun _ => "ab") (fun _ => .ok []) "p" (some "ab") = .ok true := by
  refine ⟨?_, ?_, rfl, rfl, rfl⟩
  · intro sha fs path
    rfl
  · intro sha fs path e contents he hfs
    simp [validateChecksum, computeFileChecksum, he, hfs]

/-- C6 witness: the digest-comparison part of `C6_validateChecksum_spec`
applied at a concrete digest, filesystem and expectation. -/
theorem C6_validateChecksum_spec_witness :
    validateChecksum (fun _ => "ab") (fun _ => .ok []) "p" (some "xy") =
      .ok (decide (("ab" : String) = "xy")) :=
  C6_validateChecksum_spec.2.1 (fun _ => "ab") (fun _ => .ok []) "p" "xy" []
    (by decide) rfl

/-- C7: `getLatestClientVersion` is a three-tier fallback: a primary
success is returned as-is; on primary failure a legacy response with a
truthy `client_version` is returned; every other combination (legacy
network failure, falsy body, missing or empty `client_version`) yields the
hard-coded `"v8"` — so for every combination of provider outcomes some
version string is returned and no failure is propagated. -/
theorem C7_getLatestClientVersion_fallback :
    (∀ (v : String) (legacy : Except String (Option LegacyResponse)),
      getLatestClientVersion (.ok v) legacy = v) ∧
    (∀ (e : String) (r : LegacyResponse) (v : String),
      r.client_version = some v → v ≠ "" →
      getLatestClientVersion (.error e) (.ok (some r)) = v) ∧
    (∀ (e : String) (r : LegacyResponse),
      r.client_version = none ∨ r.client_version = some "" →
      getLatestClientVersion (.error e) (.ok (some r)) = "v8") ∧
    (∀ e : String, getLatestClientVersion (.error e) (.ok none) = "v8") ∧
    (∀ e e2 : String, getLatestClientVersion (.error e) (.error e2) = "v8") ∧
    (∀ (p : Except String String) (l : Except String (Option LegacyResponse)),
      getLatestClientVersion p l = "v8" ∨
      (∃ v, p = .ok v ∧ getLatestClientVersion p l = v) ∨
      (∃ r v, l = .ok (some r) ∧ r.client_version = some v ∧
        getLatestClientVersion p l = v)) := by
  refine ⟨fun v legacy => rfl, ?_, ?_, fun e => rfl, fun e e2 => rfl, ?_⟩
  · intro e r v hv hne
    simp [getLatestClientVersion, hv, hne]
  · intro e r hv
    rcases hv with hv | hv <;> simp [getLatestClientVersion, hv]
  · intro p l
    cases p with
    | ok v => exact Or.inr (Or.inl ⟨v, rfl, rfl⟩)
    | error e =>
      cases l with
      | error e2 => exact Or.inl rfl
      | ok ro =>
        cases ro with
        | none => exact Or.inl rfl
        | some r =>
          cases hv : r.client_version with
          | none => exact Or.inl (by simp [getLatestClientVersion, hv])
          | some v =>
            by_cases hne : v = ""
            · subst hne
              exact Or.inl (by simp [getLatestClientVersion, hv])
            · exact Or.inr (Or.inr ⟨r, v, rfl, hv,
                by simp [getLatestClientVersion, hv, hne]⟩)

/-- C7 witness: the fallback tiers of `C7_getLatestClientVersion_fallback`
applied at concrete provider outcomes. -/
theorem C7_getLatestClientVersion_fallback_witness :
    getLatestClientVersion (.error "down") (.ok (some ⟨some "v9"⟩)) = "v9" ∧
    getLatestClientVersion (.error "down") (.ok (some ⟨none⟩)) = "v8" :=
  ⟨C7_getLatestClientVersion_fallback.2.1 "down" ⟨some "v9"⟩ "v9" rfl (by decide),
    C7_getLatestClientVersion_fallback.2.2.1 "down" ⟨none⟩ (Or.inl rfl)⟩

/-- C2 counterexample: the manifest entry for build 8 is present but
declares no source build (`from` absent), is marked a proper delta and has
a patch URL; yet for current version `"v7"` the planner judges the delta
applicable, because `extractVersionDetails` defaulted the source to
`targetBuild - 1 = 7`.  This refutes the claim that an entry without a
declared source build can never make `canUseDifferentialUpdate` true. -/
theorem C2_canUseDifferentialUpdate_counterexample :
    (noFromManifest (extractVersionNumber (some "v8"))).isSome = true ∧
    (noFromManifest (extractVersionNumber (some "v8"))).bind PatchInfo.fromBuild
      = none ∧
    canUseDifferentialUpdate (some "v7")
      (some (extractVersionDetails "windows" "amd64" noFromManifest
        (some "v8") "release")) = true :=
  ⟨by decide, by decide, by decide⟩

/-- C2 (amended): the planner judges a delta applicable only when the
current build equals the parsed source build recorded in the plan item,
and an applicable delta requires a manifest entry with a truthy patch URL
and a true proper-delta mark — but not a declared `from`: when `from` is
absent (or the falsy 0), the recorded source defaults to
`targetBuild - 1` (when positive), and the delta is applicable exactly
against that defaulted source; a declared nonzero `from` is used as-is. -/
theorem C2_canUseDifferentialUpdate_source_amended :
    (∀ (os arch : String) (m : Int → Option PatchInfo) (tv : Option String)
        (br : String) (cur : Option String),
      canUseDifferentialUpdate cur
        (some (extractVersionDetails os arch m tv br)) = true →
      ∃ p, m (extractVersionNumber tv) = some p ∧ jsTruthy p.patch_url = true ∧
        p.proper_patch = true ∧ jsTruthy cur = true ∧
        extractVersionNumber cur =
          extractVersionNumber
            ((extractVersionDetails os arch m tv br).sourceVersion)) ∧
    (∀ (os arch : String) (m : Int → Option PatchInfo) (tv : Option String)
        (br : String) (p : PatchInfo),
      m (extractVersionNumber tv) = some p →
      p.fromBuild = none ∨ p.fromBuild = some 0 →
      (extractVersionDetails os arch m tv br).sourceVersion =
        (if extractVersionNumber tv - 1 > 0 then
          some (toString (extractVersionNumber tv - 1) ++ ".pwr")
        else none)) := by
  constructor
  · intro os arch m tv br cur h
    rw [canUse_true_iff] at h
    obtain ⟨td, htd, h1, h2, h3, h4⟩ := h
    injection htd with he
    subst he
    rw [evd_differentialUrl, jsTruthy_jsOrNullStr] at h1
    rw [evd_isDifferential] at h2
    cases hm : m (extractVersionNumber tv) with
    | none =>
      rw [hm] at h1
      cases h1
    | some p =>
      rw [hm] at h1 h2
      exact ⟨p, rfl, h1, by simpa using h2, h3, h4⟩
  · intro os arch m tv br p hm hfb
    rw [evd_sourceVersion, hm]
    rcases hfb with hfb | hfb <;> simp [hfb]

/-- C2 witness: the applicability direction of
`C2_canUseDifferentialUpdate_source_amended` applied at the concrete
no-`from` manifest. -/
theorem C2_canUseDifferentialUpdate_source_amended_witness :
    ∃ p, noFromManifest (extractVersionNumber (some "v8")) = some p ∧
      jsTruthy p.patch_url = true ∧ p.proper_patch = true ∧
      jsTruthy (some "v7") = true ∧
      extractVersionNumber (some "v7") =
        extractVersionNumber
          ((extractVersionDetails "windows" "amd64" noFromManifest
            (some "v8") "release").sourceVersion) :=
  C2_canUseDifferentialUpdate_source_amended.1 "windows" "amd64" noFromManifest
    (some "v8") "release" (some "v7") (by decide)

/-- C9 counterexample: for target `"v1"` (parsed build 1) and a manifest
with no entry, `extractVersionDetails` returns a `null` source version,
not `"0.pwr"` as `targetBuild - 1` would demand — the defaulting is
guarded by `previousBuild > 0`. -/
theorem C9_extractVersionDetails_counterexample :
    extractVersionNumber (some "v1") = 1 ∧
    (extractVersionDetails "windows" "amd64" (fun _ => none)
      (some "v1") "release").sourceVersion = none :=
  ⟨by decide, by decide⟩

/-- C9 (amended): when the manifest has no entry for the parsed target
build, the plan item's full URL is the synthesized Archive Locator URL,
its delta URL and checksum are `null` and it is not differential; the
source version is the entry's declared `from` (as `<from>.pwr`) when that
is present and nonzero, and otherwise defaults to `targetBuild - 1` (as
`<targetBuild-1>.pwr`) when `targetBuild - 1` is positive and to `null`
when it is not. -/
theorem C9_extractVersionDetails_spec_amended :
    (∀ (os arch : String) (m : Int → Option PatchInfo) (tv : Option String)
        (br : String),
      m (extractVersionNumber tv) = none →
      (extractVersionDetails os arch m tv br).fullUrl =
        buildArchiveUrl os arch (extractVersionNumber tv) br ∧
      (extractVersionDetails os arch m tv br).differentialUrl = none ∧
      (extractVersionDetails os arch m tv br).checksum = none ∧
      (extractVersionDetails os arch m tv br).isDifferential = false) ∧
    (∀ (os arch : String) (m : Int → Option PatchInfo) (tv : Option String)
        (br : String) (p : PatchInfo) (k : Int),
      m (extractVersionNumber tv) = some p → p.fromBuild = some k → k ≠ 0 →
      (extractVersionDetails os arch m tv br).sourceVersion =
        some (toString k ++ ".pwr")) ∧
    (∀ (os arch : String) (m : Int → Option PatchInfo) (tv : Option String)
        (br : String),
      (m (extractVersionNumber tv) = none ∨
        ∃ p, m (extractVersionNumber tv) = some p ∧
          (p.fromBuild = none ∨ p.fromBuild = some 0)) →
      (extractVersionDetails os arch m tv br).sourceVersion =
        (if extractVersionNumber tv - 1 > 0 then
          some (toString (extractVersionNumber tv - 1) ++ ".pwr")
        else none)) := by
  refine ⟨?_, ?_, ?_⟩
  · intro os arch m tv br hm
    refine ⟨?_, ?_, ?_, ?_⟩
    · rw [evd_fullUrl, hm]
      rfl
    · rw [evd_differentialUrl, hm]
      rfl
    · rw [evd_checksum, hm]
      rfl
    · rw [evd_isDifferential, hm]
      rfl
  · intro os arch m tv br p k hm hfb hk
    rw [evd_sourceVersion, hm]
    simp [hfb, hk]
  · intro os arch m tv br hm
    rcases hm with hm | ⟨p, hm, hfb⟩
    · rw [evd_sourceVersion, hm]
      rfl
    · rw [evd_sourceVersion, hm]
      rcases hfb with hfb | hfb <;> simp [hfb]

/-- C9 witness: the no-entry part of
`C9_extractVersionDetails_spec_amended` applied at a concrete target with
an empty manifest, and the declared-source part at a concrete entry. -/
theorem C9_extractVersionDetails_spec_amended_witness :
    ((extractVersionDetails "windows" "amd64" (fun _ => none)
        (some "v9") "release").fullUrl =
      buildArchiveUrl "windows" "amd64" (extractVersionNumber (some "v9"))
        "release" ∧
    (extractVersionDetails "windows" "amd64" (fun _ => none)
      (some "v9") "release").differentialUrl = none ∧
    (extractVersionDetails "windows" "amd64" (fun _ => none)
      (some "v9") "release").checksum = none ∧
    (extractVersionDetails "windows" "amd64" (fun _ => none)
      (some "v9") "release").isDifferential = false) ∧
    (extractVersionDetails "windows" "amd64" exampleManifest
      (some "v6") "release").sourceVersion = some (toString (5 : Int) ++ ".pwr") :=
  ⟨C9_extractVersionDetails_spec_amended.1 "windows" "amd64" (fun _ => none)
      (some "v9") "release" rfl,
    C9_extractVersionDetails_spec_amended.2.1 "windows" "amd64" exampleManifest
      (some "v6") "release" exampleEntry 5 (by decide) rfl (by decide)⟩
